import Mathlib

/-!
Verification of the CRS course patcher (`crs_patcher.py`).

Byte buffers are modelled as `List Nat` (each element one byte value); all
functions below are direct shallow embeddings of the corresponding Python
functions, keeping the source's names where Lean allows it.
-/

set_option maxRecDepth 16384

/-- CRS archive file block signature, the ASCII bytes of `MDmd`. -/
def MDMD_SIGNATURE : List Nat := [0x4D, 0x44, 0x6D, 0x64]

def OFFSET_AFTER_PATTERN : Nat := 0x2A

def NAME_LEN : Nat := 17

def HEADER_SIZE : Nat := 122

/-- `TIME_OFFSET = datetime.timedelta(hours=4, minutes=30)`, in seconds. -/
def TIME_OFFSET : Nat := 4 * 3600 + 30 * 60

/-- The byte strings of `FILES_TO_REMOVE`: `b'PATCH.OFS'` and `b'OBJECT.OFS'`. -/
def FILES_TO_REMOVE : List (List Nat) :=
  [[0x50, 0x41, 0x54, 0x43, 0x48, 0x2E, 0x4F, 0x46, 0x53],
   [0x4F, 0x42, 0x4A, 0x45, 0x43, 0x54, 0x2E, 0x4F, 0x46, 0x53]]

/-- `sig` occurs in `data` starting at byte offset `pos` (what Python's
`data.find(sig, pos) == pos` tests). The `take`-equality forces
`pos + sig.length ≤ data.length`. -/
def matchesAt (data sig : List Nat) (pos : Nat) : Bool :=
  (data.drop pos).take sig.length == sig

/-- One step per byte offset of the scanning loop of `find_all_mdmd_patterns`:
starting from `pos`, with `fuel` offsets left to inspect, collect every offset
at which `sig` matches.  Python's `data.find` jumps straight to the next match,
which collects exactly the same offsets. -/
def findAllFrom (data sig : List Nat) : Nat → Nat → List Nat
  | 0, _ => []
  | fuel + 1, pos =>
    if matchesAt data sig pos then pos :: findAllFrom data sig fuel (pos + 1)
    else findAllFrom data sig fuel (pos + 1)

/-- `find_all_mdmd_patterns`: all match positions of `MDmd`, scanned from
offset `0`, advancing one byte after every hit. -/
def find_all_mdmd_patterns (data : List Nat) : List Nat :=
  findAllFrom data MDMD_SIGNATURE data.length 0

/-- Python's substring test `sig in hay` on byte strings. -/
def containsSub (hay sig : List Nat) : Bool :=
  (List.range (hay.length + 1)).any (fun i => (hay.drop i).take sig.length == sig)

/-- The byte slice `data[s:e]`. -/
def sliceSpan (data : List Nat) (s e : Nat) : List Nat :=
  (data.drop s).take (e - s)

/-- The block spans derived from consecutive match positions: each span runs
from a match position to the next one, the last to the end of the buffer
(`file_end = pattern_positions[i+1] if i+1 < len(...) else len(data)`). -/
def spansOf (positions : List Nat) (len : Nat) : List (Nat × Nat) :=
  match positions with
  | [] => []
  | p :: rest =>
    match rest with
    | [] => [(p, len)]
    | q :: _ => (p, q) :: spansOf rest len

/-- A span is marked for deletion when any of the exclusion signatures occurs
anywhere inside the span's bytes (`if signature in file_data: ...; break`). -/
def spanMarked (data : List Nat) (fs : List (List Nat)) (sp : Nat × Nat) : Bool :=
  fs.any (fun sig => containsSub (sliceSpan data sp.1 sp.2) sig)

/-- The list `files_to_delete` of `remove_files_from_archive` (in scan order). -/
def markedSpans (data : List Nat) (positions : List Nat) (fs : List (List Nat)) :
    List (Nat × Nat) :=
  (spansOf positions data.length).filter (spanMarked data fs)

/-- The in-place deletion `del cleaned[s:e]`. -/
def deleteSpan (data : List Nat) (s e : Nat) : List Nat :=
  data.take s ++ data.drop e

/-- Stable insertion (by start offset, descending) used to model
`files_to_delete.sort(key=lambda x: x[0], reverse=True)`. -/
def insertDesc (x : Nat × Nat) : List (Nat × Nat) → List (Nat × Nat)
  | [] => [x]
  | y :: ys => if y.1 ≤ x.1 then x :: y :: ys else y :: insertDesc x ys

def sortDescByStart (l : List (Nat × Nat)) : List (Nat × Nat) :=
  l.foldr insertDesc []

/-- `remove_files_from_archive(data, pattern_positions, files_to_remove)`:
guards for an empty exclusion list / no matches / nothing marked, then deletes
the marked spans in descending start-offset order. -/
def remove_files_from_archive (data positions : List Nat) (fs : List (List Nat)) :
    List Nat :=
  if fs.isEmpty || positions.isEmpty then data
  else
    let marked := markedSpans data positions fs
    if marked.isEmpty then data
    else (sortDescByStart marked).foldl (fun buf sp => deleteSpan buf sp.1 sp.2) data

/-- Modelled from the spec (reference strategy for the refinement claim):
"compute the retained spans up front and copy only them, in original order,
into a fresh buffer".  Given the marked spans in ascending order, the retained
spans are the gap before each marked span and the tail after the last one. -/
def copyRetained (data : List Nat) (c len : Nat) : List (Nat × Nat) → List Nat
  | [] => sliceSpan data c len
  | sp :: rest => sliceSpan data c sp.1 ++ copyRetained data sp.2 len rest

/-- The reference removal strategy of the spec: mark the same spans, then copy
the retained byte ranges in original order into a fresh buffer. -/
def remove_files_by_copy (data positions : List Nat) (fs : List (List Nat)) :
    List Nat :=
  copyRetained data 0 data.length (markedSpans data positions fs)

/-- Well-formed ascending span lists: every span starts at or after `c`, is
nonempty, ends by `len`, and later spans start at or after earlier ones end. -/
def ChainSpans (c len : Nat) : List (Nat × Nat) → Prop
  | [] => True
  | sp :: rest => c ≤ sp.1 ∧ sp.1 < sp.2 ∧ sp.2 ≤ len ∧ ChainSpans sp.2 len rest

/-- Python `int.to_bytes(2, 'little')` (defined for values below `2^16`). -/
def bytes2 (n : Nat) : List Nat :=
  [n % 256, n / 256 % 256]

/-- Python `int.to_bytes(3, 'little')` (defined for values below `2^24`). -/
def bytes3 (n : Nat) : List Nat :=
  [n % 256, n / 256 % 256, n / 256 / 256 % 256]

/-- The value of a little-endian byte string. -/
def leVal (bs : List Nat) : Nat :=
  bs.foldr (fun b acc => b + 256 * acc) 0

/-- Byte-level model of `bytes.decode('ascii', errors='ignore')` followed by
`str.upper()`: non-ASCII bytes are dropped, lowercase ASCII letters are
uppercased. -/
def upperByte (b : Nat) : Nat :=
  if 0x61 ≤ b ∧ b ≤ 0x7A then b - 32 else b

def upperName (bs : List Nat) : List Nat :=
  (bs.filter (fun b => decide (b < 128))).map upperByte

/-- The block-name extraction of `process_archive`:
`data[pos+0x2A : pos+0x2A+32].split(b'\x20', 1)[0][:13]`. -/
def nameBytesAt (data : List Nat) (pos : Nat) : List Nat :=
  (((data.drop (pos + OFFSET_AFTER_PATTERN)).take 32).takeWhile
    (fun b => b != 0x20)).take 13

/-- `index_block = bytearray(NAME_LEN); index_block[:len(name_bytes)] = name_bytes`:
the 17-byte record before offset patching. -/
def rawIndexBlock (data : List Nat) (pos : Nat) : List Nat :=
  nameBytesAt data pos ++ List.replicate (NAME_LEN - (nameBytesAt data pos).length) 0

/-- `index_block[13:16] = final_offset.to_bytes(3, 'little')` with
`final_offset = pos + base_offset`. -/
def patchedIndexBlock (data : List Nat) (base_offset pos : Nat) : List Nat :=
  (rawIndexBlock data pos).take 13 ++ bytes3 (pos + base_offset)
    ++ (rawIndexBlock data pos).drop 16

/-- The uppercased exclusion names
(`{sig.decode('ascii', errors='ignore').upper() for sig in FILES_TO_REMOVE}`). -/
def excludedNames : List (List Nat) :=
  FILES_TO_REMOVE.map upperName

/-- The post-removal buffer of `process_archive` (`data` after
`remove_files_from_archive(data, all_positions)`). -/
def pa_data (data0 : List Nat) : List Nat :=
  remove_files_from_archive data0 (find_all_mdmd_patterns data0) FILES_TO_REMOVE

/-- `final_positions`: the rescanned match positions of the post-removal buffer
whose (uppercased) block name is not an excluded name. -/
def pa_positions (data0 : List Nat) : List Nat :=
  (find_all_mdmd_patterns (pa_data data0)).filter
    (fun pos => decide (upperName (nameBytesAt (pa_data data0) pos) ∉ excludedNames))

/-- `file_count = len(index_blocks)`. -/
def pa_count (data0 : List Nat) : Nat :=
  (pa_positions data0).length

/-- `base_offset = (file_count * NAME_LEN) + HEADER_SIZE`. -/
def pa_base (data0 : List Nat) : Nat :=
  pa_count data0 * NAME_LEN + HEADER_SIZE

/-- The final `index_blocks` returned by `process_archive`, after offset
patching. -/
def pa_blocks (data0 : List Nat) : List (List Nat) :=
  (pa_positions data0).map (patchedIndexBlock (pa_data data0) (pa_base data0))

/-- A small concrete archive: one `MDmd` block whose name field (0x2A bytes
after the match) is `"A"` padded with spaces. -/
def crsSampleA : List Nat :=
  [0x4D, 0x44, 0x6D, 0x64] ++ List.replicate 38 0 ++ [0x41, 0x20, 0x20, 0x20]

/-- A calendar timestamp (what Python's `datetime.datetime` carries, to the
second). -/
structure DateTime where
  year : Nat
  month : Nat
  day : Nat
  hour : Nat
  minute : Nat
  second : Nat
deriving DecidableEq, Repr

/-- Modelled library behavior: `datetime.datetime.fromtimestamp(s, UTC)` for a
nonnegative POSIX timestamp `s`, through the standard proleptic-Gregorian
civil-from-days conversion. -/
def toUTC (s : Nat) : DateTime :=
  let days := s / 86400
  let rem := s % 86400
  let z := days + 719468
  let era := z / 146097
  let doe := z % 146097
  let yoe := (doe - doe / 1460 + doe / 36524 - doe / 146096) / 365
  let y := yoe + era * 400
  let doy := doe - (365 * yoe + yoe / 4 - yoe / 100)
  let mp := (5 * doy + 2) / 153
  let d := doy - (153 * mp + 2) / 5 + 1
  let m := if mp < 10 then mp + 3 else mp - 9
  { year := if m ≤ 2 then y + 1 else y, month := m, day := d,
    hour := rem / 3600, minute := rem % 3600 / 60, second := rem % 60 }

/-- The exact-length slice assignment `buf[off : off + bytes.length] = bytes`
on a `bytearray` (all header writes are in range, with the slice width equal to
the length of the written bytes). -/
def setSlice : List Nat → Nat → List Nat → List Nat
  | [], _, _ => []
  | _ :: t, 0, b :: bs => b :: setSlice t 0 bs
  | l, 0, [] => l
  | x :: t, off + 1, bs => x :: setSlice t off bs

/-- `build_header_dynamically(file_count, filepath)`, with the file's
modification time passed as a POSIX timestamp.  Returns
`(header, dos_time, dos_date)`. -/
def build_header_dynamically (file_count mtime : Nat) : List Nat × Nat × Nat :=
  let header := List.replicate HEADER_SIZE 0
  let header := setSlice header 0x00 MDMD_SIGNATURE
  let header := setSlice header 0x04 [0x0A]
  let header := setSlice header 0x05 [0x01]
  let header := setSlice header 0x06 (bytes2 HEADER_SIZE)
  let header := setSlice header 0x0A (bytes2 file_count)
  let table_size_bytes := bytes2 (file_count * NAME_LEN)
  let header := setSlice header 0x19 table_size_bytes
  let header := setSlice header 0x1D table_size_bytes
  let mod_date := toUTC (mtime + TIME_OFFSET)
  let dos_year := mod_date.year - 1980
  let dos_date := (dos_year <<< 9) ||| (mod_date.month <<< 5) ||| mod_date.day
  let dos_time :=
    (mod_date.hour <<< 11) ||| (mod_date.minute <<< 5) ||| (mod_date.second / 2)
  let header := setSlice header 0x23 (bytes2 dos_time)
  let header := setSlice header 0x25 (bytes2 dos_date)
  let header := setSlice header 0x29 [0x07]
  let header := setSlice header 0x2A [0x7E, 0x49, 0x4E, 0x44, 0x45, 0x58, 0x7E]
  let header := setSlice header 0x31 (List.replicate 5 0x20)
  let header := setSlice header 0x36 [0x00]
  let header := setSlice header 0x37 (List.replicate 67 0x20)
  (header, dos_time, dos_date)

/-- The `dos_time` computed by `build_header_dynamically`:
`(hour << 11) | (minute << 5) | (second // 2)` of the corrected time. -/
def dosTimeOf (mtime : Nat) : Nat :=
  ((toUTC (mtime + TIME_OFFSET)).hour <<< 11)
    ||| ((toUTC (mtime + TIME_OFFSET)).minute <<< 5)
    ||| ((toUTC (mtime + TIME_OFFSET)).second / 2)

/-- The `dos_date` computed by `build_header_dynamically`:
`((year - 1980) << 9) | (month << 5) | day` of the corrected time. -/
def dosDateOf (mtime : Nat) : Nat :=
  (((toUTC (mtime + TIME_OFFSET)).year - 1980) <<< 9)
    ||| ((toUTC (mtime + TIME_OFFSET)).month <<< 5)
    ||| (toUTC (mtime + TIME_OFFSET)).day

/-- `MDMD_FILE_HEADER_PATTERN = bytes.fromhex("4D 44 6D 64 0A 01 7A 00 00 00 00 00")`. -/
def SUBHEADER_SIGNATURE : List Nat :=
  [0x4D, 0x44, 0x6D, 0x64, 0x0A, 0x01, 0x7A, 0x00, 0x00, 0x00, 0x00, 0x00]

def PATH_OFFSET_IN_HEADER : Nat := 0x36

/-- The ASCII bytes of the default target path `C:\LINKS\TEMP\`. -/
def pathBytes : List Nat :=
  [0x43, 0x3A, 0x5C, 0x4C, 0x49, 0x4E, 0x4B, 0x53, 0x5C, 0x54, 0x45, 0x4D,
   0x50, 0x5C]

/-- `path_segment = bytes([len(path_bytes)]) + path_bytes`. -/
def pathSegment : List Nat := pathBytes.length :: pathBytes

/-- Python's `data.find(sig, sp)`: the first match offset at or after `sp`,
`none` when there is none. -/
def findFrom (data sig : List Nat) (sp : Nat) : Option Nat :=
  ((List.range data.length).filter
    (fun i => decide (sp ≤ i) && matchesAt data sig i)).head?

/-- The in-range slice assignment
`data[path_start:path_end] = path_segment` (`path_end < len(data)`). -/
def writeSeg (data : List Nat) (ps : Nat) (seg : List Nat) : List Nat :=
  data.take ps ++ seg ++ data.drop (ps + seg.length)

/-- The padding loop
`while pos < len(data) and data[pos] != 0x20: data[pos] = 0x20; pos += 1`:
the leading run of non-space bytes starting at `pos` becomes spaces. -/
def spacePadFrom (data : List Nat) (pos : Nat) : List Nat :=
  data.take pos
    ++ ((data.drop pos).takeWhile (fun b => b != 0x20)).map (fun _ => 0x20)
    ++ (data.drop pos).dropWhile (fun b => b != 0x20)

/-- The scanning loop of `replace_internal_paths`: find the 12-byte sub-header
signature from `search_pos`; skip (with a warning) when the write would reach
past `len(data) - 1` (`path_end >= len(data)`), otherwise overwrite the path
field, pad with spaces, and count the replacement; always resume one byte
after the match.  The cursor strictly increases, so `data.length + 1` steps of
fuel are enough for the Python `while True` loop. -/
def rip_loop (seg : List Nat) : Nat → List Nat → Nat → Nat → List Nat × Nat
  | 0, data, _, total => (data, total)
  | fuel + 1, data, search_pos, total =>
    match findFrom data SUBHEADER_SIGNATURE search_pos with
    | none => (data, total)
    | some pattern_pos =>
      let path_start := pattern_pos + PATH_OFFSET_IN_HEADER
      let path_end := path_start + seg.length
      if data.length ≤ path_end then
        rip_loop seg fuel data (pattern_pos + 1) total
      else
        rip_loop seg fuel (spacePadFrom (writeSeg data path_start seg) path_end)
          (pattern_pos + 1) (total + 1)

/-- `replace_internal_paths(data)`: returns the patched buffer and the number
of replacements. -/
def replace_internal_paths (data : List Nat) : List Nat × Nat :=
  rip_loop pathSegment (data.length + 1) data 0 0

/-- **C4 (counterexample input).** A 69-byte buffer that starts with the
sub-header signature: the path write at `0x36` would end exactly at the buffer
end (`path_end = 69 = len(data)`). -/
def ripBoundarySample : List Nat :=
  SUBHEADER_SIGNATURE ++ List.replicate 57 0

/-- A 70-byte buffer starting with the sub-header signature: the path write at
`0x36` fits strictly inside the buffer. -/
def ripFitSample : List Nat :=
  SUBHEADER_SIGNATURE ++ List.replicate 58 0

theorem matchesAt_take_eq {data sig : List Nat} {pos : Nat}
    (h : matchesAt data sig pos = true) : (data.drop pos).take sig.length = sig := by
  simpa [matchesAt] using h

theorem matchesAt_le_length {data sig : List Nat} {pos : Nat}
    (hsig : 0 < sig.length) (h : matchesAt data sig pos = true) :
    pos + sig.length ≤ data.length := by
  have h' := matchesAt_take_eq h
  have hlen := congrArg List.length h'
  simp [List.length_take, List.length_drop] at hlen
  omega

theorem matchesAt_lt_length {data sig : List Nat} {pos : Nat}
    (hsig : 0 < sig.length) (h : matchesAt data sig pos = true) :
    pos < data.length := by
  have := matchesAt_le_length hsig h
  omega

theorem findAllFrom_eq_filter (data sig : List Nat) :
    ∀ fuel pos, findAllFrom data sig fuel pos
      = (List.range' pos fuel).filter (fun p => matchesAt data sig p) := by
  intro fuel
  induction fuel with
  | zero => intro pos; simp [findAllFrom]
  | succ n ih =>
    intro pos
    rw [List.range'_succ]
    by_cases h : matchesAt data sig pos = true
    · simp [findAllFrom, h, ih, List.filter_cons]
    · simp only [Bool.not_eq_true] at h
      simp [findAllFrom, h, ih, List.filter_cons]

theorem find_all_eq_filter (data : List Nat) :
    find_all_mdmd_patterns data
      = (List.range data.length).filter (fun p => matchesAt data MDMD_SIGNATURE p) := by
  rw [find_all_mdmd_patterns, findAllFrom_eq_filter, List.range_eq_range']

theorem mem_find_all {data : List Nat} {p : Nat} :
    p ∈ find_all_mdmd_patterns data ↔ matchesAt data MDMD_SIGNATURE p = true := by
  rw [find_all_eq_filter, List.mem_filter, List.mem_range]
  constructor
  · exact fun h => h.2
  · intro h
    refine ⟨matchesAt_lt_length (by simp [MDMD_SIGNATURE]) h, h⟩

theorem find_all_sorted (data : List Nat) :
    List.Pairwise (fun a b => a < b) (find_all_mdmd_patterns data) := by
  rw [find_all_eq_filter]
  exact (List.pairwise_lt_range data.length).filter _

theorem find_all_bounds {data : List Nat} {p : Nat}
    (h : p ∈ find_all_mdmd_patterns data) : p < data.length :=
  matchesAt_lt_length (by simp [MDMD_SIGNATURE]) (mem_find_all.mp h)

/-- **C8.** `find_all_mdmd_patterns` returns the strictly increasing sequence of
all starting offsets at which the 4-byte `MDmd` signature occurs (adjacent and
overlapping occurrences included, since the cursor advances by one byte after a
hit); membership is exactly "the signature matches there", and the result is
empty exactly when the signature occurs nowhere.  It is a pure function of the
buffer. -/
theorem c8_pattern_scanner (data : List Nat) :
    List.Pairwise (fun a b => a < b) (find_all_mdmd_patterns data)
    ∧ (∀ p, p ∈ find_all_mdmd_patterns data ↔ matchesAt data MDMD_SIGNATURE p = true)
    ∧ (find_all_mdmd_patterns data = []
        ↔ ∀ p, matchesAt data MDMD_SIGNATURE p = false) := by
  refine ⟨find_all_sorted data, fun p => mem_find_all, ?_⟩
  rw [List.eq_nil_iff_forall_not_mem]
  constructor
  · intro h p
    have := h p
    rw [mem_find_all] at this
    simpa using this
  · intro h p hp
    rw [mem_find_all] at hp
    rw [h p] at hp
    exact Bool.false_ne_true hp

theorem chainSpans_mono {c c' len : Nat} {l : List (Nat × Nat)} (hc : c' ≤ c)
    (h : ChainSpans c len l) : ChainSpans c' len l := by
  cases l with
  | nil => trivial
  | cons sp rest =>
    obtain ⟨h1, h2, h3, h4⟩ := h
    exact ⟨le_trans hc h1, h2, h3, h4⟩

theorem chainSpans_filter {c len : Nat} {l : List (Nat × Nat)}
    (h : ChainSpans c len l) (f : Nat × Nat → Bool) :
    ChainSpans c len (l.filter f) := by
  induction l generalizing c with
  | nil => trivial
  | cons sp rest ih =>
    obtain ⟨h1, h2, h3, h4⟩ := h
    rw [List.filter_cons]
    by_cases hf : f sp = true
    · simp only [hf, if_pos]
      exact ⟨h1, h2, h3, ih h4⟩
    · simp only [hf]
      simp only [Bool.false_eq_true, if_false]
      exact chainSpans_mono (le_trans h1 (le_of_lt h2)) (ih h4)

theorem chainSpans_starts {c len : Nat} {l : List (Nat × Nat)}
    (h : ChainSpans c len l) : ∀ sp ∈ l, c ≤ sp.1 := by
  induction l generalizing c with
  | nil => intro sp hsp; cases hsp
  | cons x rest ih =>
    obtain ⟨h1, h2, h3, h4⟩ := h
    intro sp hsp
    rcases List.mem_cons.mp hsp with hsp | hsp
    · exact hsp ▸ h1
    · exact le_trans (le_trans h1 (le_of_lt h2)) (ih h4 sp hsp)

theorem chainSpans_nonempty {c len : Nat} {l : List (Nat × Nat)}
    (h : ChainSpans c len l) : ∀ sp ∈ l, sp.1 < sp.2 ∧ sp.2 ≤ len := by
  induction l generalizing c with
  | nil => intro sp hsp; cases hsp
  | cons x rest ih =>
    obtain ⟨h1, h2, h3, h4⟩ := h
    intro sp hsp
    rcases List.mem_cons.mp hsp with hsp | hsp
    · exact hsp ▸ ⟨h2, h3⟩
    · exact ih h4 sp hsp

theorem spansOf_chain {positions : List Nat} {len : Nat}
    (hs : List.Pairwise (fun a b => a < b) positions)
    (hb : ∀ p ∈ positions, p < len) :
    ∀ c, (∀ p ∈ positions, c ≤ p) → ChainSpans c len (spansOf positions len) := by
  induction positions with
  | nil => intro c _; trivial
  | cons p rest ih =>
    intro c hc
    rcases hs with _ | ⟨hlt, hs'⟩
    cases rest with
    | nil =>
      exact ⟨hc p (by simp), hb p (by simp), le_refl len, trivial⟩
    | cons q tail =>
      refine ⟨hc p (by simp), hlt q (by simp), le_of_lt (hb q (by simp)), ?_⟩
      refine ih hs' (fun r hr => hb r (List.mem_cons_of_mem p hr)) q ?_
      intro r hr
      rcases List.mem_cons.mp hr with hr | hr
      · exact le_of_eq hr.symm
      · exact le_of_lt ((List.pairwise_cons.mp hs').1 r hr)

theorem insertDesc_append {x : Nat × Nat} {l : List (Nat × Nat)}
    (h : ∀ y ∈ l, ¬ y.1 ≤ x.1) : insertDesc x l = l ++ [x] := by
  induction l with
  | nil => rfl
  | cons y ys ih =>
    have hy : ¬ y.1 ≤ x.1 := h y (by simp)
    simp only [insertDesc, hy, if_false]
    rw [ih (fun z hz => h z (List.mem_cons_of_mem y hz))]
    simp

theorem sortDesc_of_chain {c len : Nat} {l : List (Nat × Nat)}
    (h : ChainSpans c len l) : sortDescByStart l = l.reverse := by
  induction l generalizing c with
  | nil => rfl
  | cons sp rest ih =>
    obtain ⟨h1, h2, h3, h4⟩ := h
    show insertDesc sp (sortDescByStart rest) = (sp :: rest).reverse
    rw [ih h4, insertDesc_append, List.reverse_cons]
    intro y hy
    have := chainSpans_starts h4 y (List.mem_reverse.mp hy)
    omega

theorem deleteSpan_length (data : List Nat) (s e : Nat) :
    (deleteSpan data s e).length = min s data.length + (data.length - e) := by
  simp [deleteSpan]

theorem deleteSpan_take {data : List Nat} {s e c : Nat} (hcs : c ≤ s)
    (hcd : c ≤ data.length) : (deleteSpan data s e).take c = data.take c := by
  have hlen : c ≤ (data.take s).length := by
    simp only [List.length_take]
    omega
  rw [deleteSpan, List.take_append_of_le_length hlen, List.take_take,
    Nat.min_eq_left hcs]

theorem deleteSpan_drop {data : List Nat} {s e c : Nat} (hcs : c ≤ s)
    (hce : c ≤ e) :
    (deleteSpan data s e).drop c = deleteSpan (data.drop c) (s - c) (e - c) := by
  have h1 : (data.drop c).take (s - c) = (data.take s).drop c := by
    rw [List.take_drop]
    have hs : c + (s - c) = s := by omega
    rw [hs]
  have h2 : (data.drop c).drop (e - c) = data.drop e := by
    rw [List.drop_drop]
    have hh : c + (e - c) = e := by omega
    rw [hh]
  rw [deleteSpan, deleteSpan, h1, h2]
  by_cases hc : c ≤ (data.take s).length
  · rw [List.drop_append_of_le_length hc]
  · have hlt : data.length < c := by
      simp only [List.length_take] at hc
      omega
    have hde : data.drop e = [] := List.drop_eq_nil_of_le (by omega)
    have hde' : (data.take s).drop c = [] := List.drop_eq_nil_of_le (by
      simp only [List.length_take]
      omega)
    rw [List.drop_append_eq_append_drop, hde, hde']
    simp

theorem foldl_deleteSpan_shift :
    ∀ (l : List (Nat × Nat)) (data : List Nat) (c : Nat), c ≤ data.length →
      (∀ sp ∈ l, c ≤ sp.1 ∧ c ≤ sp.2) →
      l.foldl (fun buf sp => deleteSpan buf sp.1 sp.2) data
        = data.take c
          ++ (l.map (fun sp => (sp.1 - c, sp.2 - c))).foldl
              (fun buf sp => deleteSpan buf sp.1 sp.2) (data.drop c) := by
  intro l
  induction l with
  | nil =>
    intro data c hcd _
    simp [List.take_append_drop]
  | cons sp t ih =>
    intro data c hcd hl
    obtain ⟨hc1, hc2⟩ := hl sp (by simp)
    have hC : c ≤ (deleteSpan data sp.1 sp.2).length := by
      rw [deleteSpan_length]
      omega
    simp only [List.foldl_cons, List.map_cons]
    rw [ih (deleteSpan data sp.1 sp.2) c hC
      (fun y hy => hl y (List.mem_cons_of_mem sp hy))]
    rw [deleteSpan_take hc1 hcd, deleteSpan_drop hc1 hc2]

theorem chainSpans_shift :
    ∀ (l : List (Nat × Nat)) (e len c : Nat), c ≤ e → ChainSpans e len l →
      ChainSpans (e - c) (len - c) (l.map (fun sp => (sp.1 - c, sp.2 - c))) := by
  intro l
  induction l with
  | nil => intro e len c _ _; trivial
  | cons sp rest ih =>
    intro e len c hce h
    obtain ⟨h1, h2, h3, h4⟩ := h
    simp only [List.map_cons]
    refine ⟨show e - c ≤ sp.1 - c by omega, show sp.1 - c < sp.2 - c by omega,
      show sp.2 - c ≤ len - c by omega, ?_⟩
    exact ih sp.2 len c (by omega) h4

theorem sliceSpan_shift (data : List Nat) {c s e : Nat} (hcs : c ≤ s) :
    sliceSpan data s e = sliceSpan (data.drop c) (s - c) (e - c) := by
  unfold sliceSpan
  rw [List.drop_drop]
  have h1 : c + (s - c) = s := by omega
  have h2 : (e - c) - (s - c) = e - s := by omega
  rw [h1, h2]

theorem copyRetained_shift :
    ∀ (l : List (Nat × Nat)) (data : List Nat) (c e len : Nat), c ≤ e →
      ChainSpans e len l →
      copyRetained data e len l
        = copyRetained (data.drop c) (e - c) (len - c)
            (l.map (fun sp => (sp.1 - c, sp.2 - c))) := by
  intro l
  induction l with
  | nil =>
    intro data c e len hce _
    simp only [copyRetained, List.map_nil]
    exact sliceSpan_shift data hce
  | cons sp rest ih =>
    intro data c e len hce h
    obtain ⟨h1, h2, h3, h4⟩ := h
    simp only [copyRetained, List.map_cons]
    rw [← sliceSpan_shift data (by omega : c ≤ e), ih data c sp.2 len (by omega) h4]

theorem foldl_delete_eq_copyRetained_aux :
    ∀ (n : Nat) (ms : List (Nat × Nat)) (data : List Nat), ms.length ≤ n →
      ChainSpans 0 data.length ms →
      ms.reverse.foldl (fun buf sp => deleteSpan buf sp.1 sp.2) data
        = copyRetained data 0 data.length ms := by
  intro n
  induction n with
  | zero =>
    intro ms data hn _
    have : ms = [] := List.length_eq_zero.mp (by omega)
    subst this
    simp [copyRetained, sliceSpan, List.take_length]
  | succ n ih =>
    intro ms data hn hchain
    cases ms with
    | nil => simp [copyRetained, sliceSpan, List.take_length]
    | cons sp rest =>
      obtain ⟨h1, h2, h3, h4⟩ := hchain
      rw [List.reverse_cons, List.foldl_append]
      have hstarts : ∀ y ∈ rest.reverse, sp.2 ≤ y.1 ∧ sp.2 ≤ y.2 := by
        intro y hy
        have hmem := List.mem_reverse.mp hy
        have hs := chainSpans_starts h4 y hmem
        have hne := (chainSpans_nonempty h4 y hmem).1
        omega
      rw [foldl_deleteSpan_shift rest.reverse data sp.2 h3 hstarts]
      rw [List.map_reverse]
      have hshift := chainSpans_shift rest sp.2 data.length sp.2 le_rfl h4
      have hlen2 : (rest.map (fun y => (y.1 - sp.2, y.2 - sp.2))).length ≤ n := by
        simp only [List.length_map]
        simp only [List.length_cons] at hn
        omega
      have hchain2 : ChainSpans 0 (data.drop sp.2).length
          (rest.map (fun y => (y.1 - sp.2, y.2 - sp.2))) := by
        rw [List.length_drop]
        simpa using hshift
      rw [ih _ (data.drop sp.2) hlen2 hchain2]
      have hcopy := copyRetained_shift rest data sp.2 sp.2 data.length le_rfl h4
      simp only [Nat.sub_self] at hcopy
      rw [List.length_drop, ← hcopy]
      show deleteSpan (data.take sp.2 ++ copyRetained data sp.2 data.length rest)
          sp.1 sp.2 = copyRetained data 0 data.length (sp :: rest)
      have hlentake : (data.take sp.2).length = sp.2 := by
        simp only [List.length_take]
        omega
      rw [deleteSpan, List.take_append_of_le_length (by omega),
        List.drop_left' hlentake, List.take_take, Nat.min_eq_left (le_of_lt h2)]
      simp [copyRetained, sliceSpan]

theorem foldl_delete_eq_copyRetained {ms : List (Nat × Nat)} {data : List Nat}
    (h : ChainSpans 0 data.length ms) :
    ms.reverse.foldl (fun buf sp => deleteSpan buf sp.1 sp.2) data
      = copyRetained data 0 data.length ms :=
  foldl_delete_eq_copyRetained_aux ms.length ms data le_rfl h

theorem copyRetained_nil (data : List Nat) :
    copyRetained data 0 data.length [] = data := by
  simp [copyRetained, sliceSpan, List.take_length]

theorem markedSpans_chain (data : List Nat) (fs : List (List Nat)) :
    ChainSpans 0 data.length (markedSpans data (find_all_mdmd_patterns data) fs) := by
  apply chainSpans_filter
  exact spansOf_chain (find_all_sorted data) (fun p hp => find_all_bounds hp) 0
    (fun p _ => Nat.zero_le p)

theorem remove_eq_copyRetained (data : List Nat) (fs : List (List Nat)) :
    remove_files_from_archive data (find_all_mdmd_patterns data) fs
      = copyRetained data 0 data.length
          (markedSpans data (find_all_mdmd_patterns data) fs) := by
  unfold remove_files_from_archive
  by_cases hfs : fs.isEmpty
  · have : fs = [] := List.isEmpty_iff.mp hfs
    subst this
    have hmk : markedSpans data (find_all_mdmd_patterns data) [] = [] := by
      simp [markedSpans, spanMarked]
    rw [hmk, copyRetained_nil]
    simp [hfs]
  · by_cases hpos : (find_all_mdmd_patterns data).isEmpty
    · have hp : find_all_mdmd_patterns data = [] := List.isEmpty_iff.mp hpos
      have hmk : markedSpans data (find_all_mdmd_patterns data) fs = [] := by
        simp [markedSpans, hp, spansOf]
      rw [hmk, copyRetained_nil]
      simp [hpos]
    · simp only [hfs, hpos, Bool.or_self, if_false, Bool.false_or]
      by_cases hmk : (markedSpans data (find_all_mdmd_patterns data) fs).isEmpty
      · have h0 : markedSpans data (find_all_mdmd_patterns data) fs = [] :=
          List.isEmpty_iff.mp hmk
        rw [h0, copyRetained_nil]
        simp [h0]
      · simp only [hmk, if_false]
        rw [sortDesc_of_chain (markedSpans_chain data fs)]
        exact foldl_delete_eq_copyRetained (markedSpans_chain data fs)

/-- **C2.** Deleting the marked spans in strictly descending start-offset order
(as `remove_files_from_archive` does) produces byte-for-byte the same buffer as
the reference strategy that computes the retained spans up front and copies
only them, in original order, into a fresh buffer. -/
theorem c2_reverse_delete_refines_copy (data : List Nat) (fs : List (List Nat)) :
    remove_files_from_archive data (find_all_mdmd_patterns data) fs
      = remove_files_by_copy data (find_all_mdmd_patterns data) fs := by
  rw [remove_files_by_copy]
  exact remove_eq_copyRetained data fs

/-- **C3.** A span is marked for deletion iff some exclusion signature occurs
inside its bytes; the output is the concatenation, in original order, of the
untouched retained ranges; and with no exclusion signatures, no matches, or
nothing marked, the buffer is returned unchanged. -/
theorem c3_span_marking (data : List Nat) (fs : List (List Nat)) :
    (∀ sp ∈ spansOf (find_all_mdmd_patterns data) data.length,
        (sp ∈ markedSpans data (find_all_mdmd_patterns data) fs
          ↔ ∃ sig ∈ fs, containsSub (sliceSpan data sp.1 sp.2) sig = true))
    ∧ remove_files_from_archive data (find_all_mdmd_patterns data) fs
        = copyRetained data 0 data.length
            (markedSpans data (find_all_mdmd_patterns data) fs)
    ∧ (fs = [] →
        remove_files_from_archive data (find_all_mdmd_patterns data) fs = data)
    ∧ (find_all_mdmd_patterns data = [] →
        remove_files_from_archive data (find_all_mdmd_patterns data) fs = data)
    ∧ (markedSpans data (find_all_mdmd_patterns data) fs = [] →
        remove_files_from_archive data (find_all_mdmd_patterns data) fs = data) := by
  refine ⟨?_, remove_eq_copyRetained data fs, ?_, ?_, ?_⟩
  · intro sp hsp
    rw [markedSpans, List.mem_filter]
    simp [hsp, spanMarked, List.any_eq_true]
  · intro h
    subst h
    simp [remove_files_from_archive]
  · intro h
    simp [remove_files_from_archive, h]
  · intro h
    rw [remove_eq_copyRetained, h, copyRetained_nil]

theorem c3_span_marking_witness :
    remove_files_from_archive [1, 2, 3] (find_all_mdmd_patterns [1, 2, 3]) []
      = [1, 2, 3] :=
  (c3_span_marking [1, 2, 3] []).2.2.1 rfl

theorem nameBytesAt_length_le (data : List Nat) (pos : Nat) :
    (nameBytesAt data pos).length ≤ 13 := by
  rw [nameBytesAt, List.length_take]
  omega

theorem rawIndexBlock_length (data : List Nat) (pos : Nat) :
    (rawIndexBlock data pos).length = 17 := by
  have h := nameBytesAt_length_le data pos
  rw [rawIndexBlock, List.length_append, List.length_replicate, NAME_LEN]
  omega

theorem patchedIndexBlock_field (data : List Nat) (base_offset pos : Nat) :
    ((patchedIndexBlock data base_offset pos).drop 13).take 3
      = bytes3 (pos + base_offset) := by
  have hlen : ((rawIndexBlock data pos).take 13).length = 13 := by
    rw [List.length_take, rawIndexBlock_length]
    omega
  rw [patchedIndexBlock, List.append_assoc, List.drop_left' hlen,
    List.take_left' (show (bytes3 (pos + base_offset)).length = 3 from rfl)]

theorem leVal_bytes3 {v : Nat} (h : v < 2 ^ 24) : leVal (bytes3 v) = v := by
  simp only [bytes3, leVal, List.foldr]
  omega

/-- **C1.** When every adjusted offset fits in three bytes, every retained index
entry's 3-byte little-endian offset field holds `base_offset + position`, where
`base_offset = entry_count * 17 + 122` and the position is the entry's
signature-match offset in the post-removal buffer. -/
theorem c1_index_offsets (data0 : List Nat)
    (h : ∀ p ∈ pa_positions data0, pa_base data0 + p < 2 ^ 24) :
    pa_base data0 = pa_count data0 * 17 + 122
    ∧ ∀ i, i < pa_count data0 →
        leVal (((pa_blocks data0).getD i []).drop 13 |>.take 3)
          = pa_base data0 + (pa_positions data0).getD i 0 := by
  refine ⟨rfl, ?_⟩
  intro i hi
  have hi' : i < (pa_positions data0).length := hi
  have hblocks : (pa_blocks data0).getD i []
      = patchedIndexBlock (pa_data data0) (pa_base data0)
          ((pa_positions data0).getD i 0) := by
    rw [pa_blocks, List.getD_eq_getElem?_getD, List.getElem?_map,
      List.getElem?_eq_getElem hi', List.getD_eq_getElem?_getD,
      List.getElem?_eq_getElem hi']
    rfl
  have hmem : (pa_positions data0).getD i 0 ∈ pa_positions data0 := by
    rw [List.getD_eq_getElem?_getD, List.getElem?_eq_getElem hi']
    exact List.getElem_mem hi'
  have hlt : (pa_positions data0).getD i 0 + pa_base data0 < 2 ^ 24 := by
    have := h _ hmem
    omega
  rw [hblocks, patchedIndexBlock_field, leVal_bytes3 hlt, Nat.add_comm]

theorem c1_index_offsets_witness :
    (∀ p ∈ pa_positions crsSampleA, pa_base crsSampleA + p < 2 ^ 24)
    ∧ (pa_base crsSampleA = pa_count crsSampleA * 17 + 122
       ∧ ∀ i, i < pa_count crsSampleA →
           leVal (((pa_blocks crsSampleA).getD i []).drop 13 |>.take 3)
             = pa_base crsSampleA + (pa_positions crsSampleA).getD i 0) :=
  ⟨by decide, c1_index_offsets crsSampleA (by decide)⟩

/-- **C5.** The block name is the leading run (up to the first space byte) of
the 32 bytes starting 0x2A after the match, truncated to 13 bytes; a block is
dropped from the index exactly when its uppercased name is an excluded name;
and every retained record is 17 bytes, name first, all remaining bytes zero
before offset patching. -/
theorem c5_name_extraction (data0 : List Nat) :
    (∀ pos ∈ find_all_mdmd_patterns (pa_data data0),
        (pos ∈ pa_positions data0
          ↔ upperName (nameBytesAt (pa_data data0) pos) ∉ excludedNames))
    ∧ (∀ pos, nameBytesAt (pa_data data0) pos
          = ((((pa_data data0).drop (pos + 0x2A)).take 32).takeWhile
              (fun b => b != 0x20)).take 13
        ∧ (nameBytesAt (pa_data data0) pos).length ≤ 13)
    ∧ (∀ pos, (rawIndexBlock (pa_data data0) pos).length = 17
        ∧ (rawIndexBlock (pa_data data0) pos).take
            (nameBytesAt (pa_data data0) pos).length
            = nameBytesAt (pa_data data0) pos
        ∧ (rawIndexBlock (pa_data data0) pos).drop
            (nameBytesAt (pa_data data0) pos).length
            = List.replicate (17 - (nameBytesAt (pa_data data0) pos).length) 0) := by
  refine ⟨?_, ?_, ?_⟩
  · intro pos hpos
    rw [pa_positions, List.mem_filter]
    simp [hpos]
  · intro pos
    exact ⟨rfl, nameBytesAt_length_le _ _⟩
  · intro pos
    refine ⟨rawIndexBlock_length _ _, ?_, ?_⟩
    · rw [rawIndexBlock, List.take_left]
    · rw [rawIndexBlock, List.drop_left]
      rfl

theorem c5_name_extraction_witness :
    0 ∈ pa_positions crsSampleA
      ↔ upperName (nameBytesAt (pa_data crsSampleA) 0) ∉ excludedNames :=
  (c5_name_extraction crsSampleA).1 0 (by decide)

/-- The 122 header bytes written by `build_header_dynamically`, one by one. -/
theorem build_header_explicit (fc mtime : Nat) :
    (build_header_dynamically fc mtime).1 =
      [0x4D, 0x44, 0x6D, 0x64, 0x0A, 0x01, 0x7A, 0x00, 0x00, 0x00,
       fc % 256, fc / 256 % 256,
       0, 0, 0, 0, 0, 0, 0, 0, 0, 0, 0, 0, 0,
       fc * 17 % 256, fc * 17 / 256 % 256, 0, 0,
       fc * 17 % 256, fc * 17 / 256 % 256, 0, 0, 0, 0,
       dosTimeOf mtime % 256, dosTimeOf mtime / 256 % 256,
       dosDateOf mtime % 256, dosDateOf mtime / 256 % 256, 0, 0,
       0x07, 0x7E, 0x49, 0x4E, 0x44, 0x45, 0x58, 0x7E,
       0x20, 0x20, 0x20, 0x20, 0x20, 0x00,
       0x20, 0x20, 0x20, 0x20, 0x20, 0x20, 0x20, 0x20, 0x20, 0x20,
       0x20, 0x20, 0x20, 0x20, 0x20, 0x20, 0x20, 0x20, 0x20, 0x20,
       0x20, 0x20, 0x20, 0x20, 0x20, 0x20, 0x20, 0x20, 0x20, 0x20,
       0x20, 0x20, 0x20, 0x20, 0x20, 0x20, 0x20, 0x20, 0x20, 0x20,
       0x20, 0x20, 0x20, 0x20, 0x20, 0x20, 0x20, 0x20, 0x20, 0x20,
       0x20, 0x20, 0x20, 0x20, 0x20, 0x20, 0x20, 0x20, 0x20, 0x20,
       0x20, 0x20, 0x20, 0x20, 0x20, 0x20, 0x20] := rfl

/-- **C6.** The header stores the file count as u16 little-endian at 0x0A and
the index-table byte size `entry_count * 17` as u16 little-endian at both 0x19
and 0x1D, identically; for `entry_count = 3` the count field is `03 00` and
both table-size fields are `33 00`. -/
theorem c6_header_table_sizes (file_count mtime : Nat)
    (h : file_count * 17 < 65536) :
    ((build_header_dynamically file_count mtime).1.drop 0x0A).take 2
        = bytes2 file_count
    ∧ ((build_header_dynamically file_count mtime).1.drop 0x19).take 2
        = bytes2 (file_count * 17)
    ∧ ((build_header_dynamically file_count mtime).1.drop 0x1D).take 2
        = bytes2 (file_count * 17)
    ∧ leVal (bytes2 file_count) = file_count
    ∧ leVal (bytes2 (file_count * 17)) = file_count * 17
    ∧ ((build_header_dynamically 3 0).1.drop 0x0A).take 2 = [0x03, 0x00]
    ∧ ((build_header_dynamically 3 0).1.drop 0x19).take 2 = [0x33, 0x00]
    ∧ ((build_header_dynamically 3 0).1.drop 0x1D).take 2 = [0x33, 0x00] := by
  refine ⟨?_, ?_, ?_, ?_, ?_, by decide, by decide, by decide⟩
  · rw [build_header_explicit]
    rfl
  · rw [build_header_explicit]
    rfl
  · rw [build_header_explicit]
    rfl
  · simp only [bytes2, leVal, List.foldr]
    omega
  · simp only [bytes2, leVal, List.foldr]
    omega

theorem c6_header_table_sizes_witness :
    ((build_header_dynamically 3 0).1.drop 0x0A).take 2 = bytes2 3
    ∧ ((build_header_dynamically 3 0).1.drop 0x19).take 2 = bytes2 (3 * 17)
    ∧ ((build_header_dynamically 3 0).1.drop 0x1D).take 2 = bytes2 (3 * 17)
    ∧ leVal (bytes2 3) = 3
    ∧ leVal (bytes2 (3 * 17)) = 3 * 17
    ∧ ((build_header_dynamically 3 0).1.drop 0x0A).take 2 = [0x03, 0x00]
    ∧ ((build_header_dynamically 3 0).1.drop 0x19).take 2 = [0x33, 0x00]
    ∧ ((build_header_dynamically 3 0).1.drop 0x1D).take 2 = [0x33, 0x00] :=
  c6_header_table_sizes 3 0 (by decide)

/-- **C7.** `build_header_dynamically` adds exactly 4h30m (16200 seconds) to
the source modification time, packs the corrected time with the MS-DOS
formulas, and stores DOS time at 0x23 and DOS date at 0x25, u16 little-endian;
for source mtime 2023-06-15 14:30:10 UTC the corrected time is
2023-06-15 19:00:10 with the scenario's DOS date and time values. -/
theorem c7_timestamp_packing (file_count mtime : Nat) :
    (build_header_dynamically file_count mtime).2.1 = dosTimeOf mtime
    ∧ (build_header_dynamically file_count mtime).2.2 = dosDateOf mtime
    ∧ dosTimeOf mtime
        = ((toUTC (mtime + TIME_OFFSET)).hour <<< 11)
            ||| ((toUTC (mtime + TIME_OFFSET)).minute <<< 5)
            ||| ((toUTC (mtime + TIME_OFFSET)).second / 2)
    ∧ dosDateOf mtime
        = (((toUTC (mtime + TIME_OFFSET)).year - 1980) <<< 9)
            ||| ((toUTC (mtime + TIME_OFFSET)).month <<< 5)
            ||| (toUTC (mtime + TIME_OFFSET)).day
    ∧ ((build_header_dynamically file_count mtime).1.drop 0x23).take 2
        = bytes2 (dosTimeOf mtime)
    ∧ ((build_header_dynamically file_count mtime).1.drop 0x25).take 2
        = bytes2 (dosDateOf mtime)
    ∧ TIME_OFFSET = 4 * 3600 + 30 * 60
    ∧ toUTC (1686839410 + TIME_OFFSET) = ⟨2023, 6, 15, 19, 0, 10⟩
    ∧ dosDateOf 1686839410 = ((2023 - 1980) <<< 9) ||| (6 <<< 5) ||| 15
    ∧ dosTimeOf 1686839410 = (19 <<< 11) ||| (0 <<< 5) ||| 5 := by
  refine ⟨rfl, rfl, rfl, rfl, ?_, ?_, rfl, by decide, by decide, by decide⟩
  · rw [build_header_explicit]
    rfl
  · rw [build_header_explicit]
    rfl

/-- **C9.** A buffer with no `MDmd` occurrence yields an empty index (count 0,
no records), and a header is still emitted: 122 bytes with the file-count field
and both table-size fields zero, and `base_offset = 122`. -/
theorem c9_no_signature (data0 : List Nat) (mtime : Nat)
    (h : find_all_mdmd_patterns data0 = []) :
    pa_count data0 = 0
    ∧ pa_blocks data0 = []
    ∧ pa_positions data0 = []
    ∧ pa_base data0 = 122
    ∧ ((build_header_dynamically (pa_count data0) mtime).1.drop 0x0A).take 2
        = [0, 0]
    ∧ ((build_header_dynamically (pa_count data0) mtime).1.drop 0x19).take 2
        = [0, 0]
    ∧ ((build_header_dynamically (pa_count data0) mtime).1.drop 0x1D).take 2
        = [0, 0]
    ∧ (build_header_dynamically (pa_count data0) mtime).1.length = 122 := by
  have hdata : pa_data data0 = data0 := by
    rw [pa_data, h]
    simp [remove_files_from_archive]
  have hpos : pa_positions data0 = [] := by
    rw [pa_positions, hdata, h]
    rfl
  have hcount : pa_count data0 = 0 := by
    rw [pa_count, hpos]
    rfl
  refine ⟨hcount, ?_, hpos, ?_, ?_, ?_, ?_, ?_⟩
  · rw [pa_blocks, hpos]
    rfl
  · rw [pa_base, hcount]
    rfl
  · rw [hcount, build_header_explicit]
    rfl
  · rw [hcount, build_header_explicit]
    rfl
  · rw [hcount, build_header_explicit]
    rfl
  · rw [hcount, build_header_explicit]
    rfl

theorem c9_no_signature_witness :
    pa_count [1, 2, 3] = 0
    ∧ pa_blocks [1, 2, 3] = []
    ∧ pa_positions [1, 2, 3] = []
    ∧ pa_base [1, 2, 3] = 122
    ∧ ((build_header_dynamically (pa_count [1, 2, 3]) 0).1.drop 0x0A).take 2
        = [0, 0]
    ∧ ((build_header_dynamically (pa_count [1, 2, 3]) 0).1.drop 0x19).take 2
        = [0, 0]
    ∧ ((build_header_dynamically (pa_count [1, 2, 3]) 0).1.drop 0x1D).take 2
        = [0, 0]
    ∧ (build_header_dynamically (pa_count [1, 2, 3]) 0).1.length = 122 :=
  c9_no_signature [1, 2, 3] 0 (by decide)

theorem findFrom_sound {data sig : List Nat} {sp p : Nat}
    (h : findFrom data sig sp = some p) :
    sp ≤ p ∧ matchesAt data sig p = true ∧ p < data.length := by
  rw [findFrom] at h
  have hmem : p ∈ (List.range data.length).filter
      (fun i => decide (sp ≤ i) && matchesAt data sig i) := by
    obtain ⟨t, ht⟩ := List.head?_eq_some_iff.mp h
    rw [ht]
    simp
  rw [List.mem_filter, List.mem_range] at hmem
  obtain ⟨hlt, hb⟩ := hmem
  simp only [Bool.and_eq_true, decide_eq_true_eq] at hb
  exact ⟨hb.1, hb.2, hlt⟩

/-- **C4, as stated, is false.** On `ripBoundarySample` the signature matches
at offset 0 and writing the 15-byte path field at `0x36` fits inside the
buffer (`0x36 + 15 = 69 ≤ 69`), so the claim requires the field to be
overwritten; the code's `path_end >= len(data)` guard nevertheless skips it,
returning the buffer unchanged with zero replacements. -/
theorem c4_skip_rule_counterexample :
    matchesAt ripBoundarySample SUBHEADER_SIGNATURE 0 = true
    ∧ 0 + PATH_OFFSET_IN_HEADER + pathSegment.length ≤ ripBoundarySample.length
    ∧ (replace_internal_paths ripBoundarySample).2 = 0
    ∧ (replace_internal_paths ripBoundarySample).1 = ripBoundarySample := by
  refine ⟨by decide, by decide, ?_, ?_⟩ <;> decide

theorem map_const_spaces (l : List Nat) :
    l.map (fun _ => 0x20) = List.replicate l.length 0x20 := by
  induction l with
  | nil => rfl
  | cons x t ih => simp [List.replicate, ih]

theorem spacePad_writeSeg (data seg : List Nat) (ps : Nat)
    (h : ps + seg.length < data.length) :
    spacePadFrom (writeSeg data ps seg) (ps + seg.length)
      = data.take ps ++ seg
        ++ List.replicate
            ((data.drop (ps + seg.length)).takeWhile (fun b => b != 0x20)).length
            0x20
        ++ (data.drop (ps + seg.length)).dropWhile (fun b => b != 0x20) := by
  have hlen : (data.take ps ++ seg).length = ps + seg.length := by
    simp only [List.length_append, List.length_take]
    omega
  have hW : (writeSeg data ps seg).take (ps + seg.length) = data.take ps ++ seg := by
    rw [writeSeg, List.take_left' hlen]
  have hD : (writeSeg data ps seg).drop (ps + seg.length)
      = data.drop (ps + seg.length) := by
    rw [writeSeg, List.drop_left' hlen]
  rw [spacePadFrom, hW, hD, map_const_spaces]

/-- **C4 (amended).** For each occurrence found by the scan: when
`path_end = match + 0x36 + 15` reaches **or** passes the buffer end
(`path_end ≥ len(data)`, so also an exact fit at the end is skipped), the
occurrence is skipped non-fatally — the buffer and the replacement count are
unchanged and scanning resumes one byte later; otherwise the length-prefixed
path field is overwritten, every following byte up to (not including) the
first byte that is already a space becomes a space, the count is incremented,
and scanning resumes one byte later. -/
theorem c4_skip_rule_amended (data : List Nat) (fuel sp total p : Nat)
    (hfind : findFrom data SUBHEADER_SIGNATURE sp = some p) :
    (data.length ≤ p + PATH_OFFSET_IN_HEADER + pathSegment.length →
       rip_loop pathSegment (fuel + 1) data sp total
         = rip_loop pathSegment fuel data (p + 1) total)
    ∧ (p + PATH_OFFSET_IN_HEADER + pathSegment.length < data.length →
       rip_loop pathSegment (fuel + 1) data sp total
         = rip_loop pathSegment fuel
             (data.take (p + PATH_OFFSET_IN_HEADER) ++ pathSegment
               ++ List.replicate
                   ((data.drop (p + PATH_OFFSET_IN_HEADER + pathSegment.length)).takeWhile
                     (fun b => b != 0x20)).length 0x20
               ++ (data.drop (p + PATH_OFFSET_IN_HEADER + pathSegment.length)).dropWhile
                   (fun b => b != 0x20))
             (p + 1) (total + 1)) := by
  constructor
  · intro hskip
    simp only [rip_loop, hfind]
    rw [if_pos hskip]
  · intro hfit
    simp only [rip_loop, hfind]
    rw [if_neg (by omega)]
    rw [spacePad_writeSeg data pathSegment (p + PATH_OFFSET_IN_HEADER) hfit]

theorem c4_skip_rule_amended_witness :
    (ripFitSample.length ≤ 0 + PATH_OFFSET_IN_HEADER + pathSegment.length →
       rip_loop pathSegment (0 + 1) ripFitSample 0 0
         = rip_loop pathSegment 0 ripFitSample (0 + 1) 0)
    ∧ (0 + PATH_OFFSET_IN_HEADER + pathSegment.length < ripFitSample.length →
       rip_loop pathSegment (0 + 1) ripFitSample 0 0
         = rip_loop pathSegment 0
             (ripFitSample.take (0 + PATH_OFFSET_IN_HEADER) ++ pathSegment
               ++ List.replicate
                   ((ripFitSample.drop
                       (0 + PATH_OFFSET_IN_HEADER + pathSegment.length)).takeWhile
                     (fun b => b != 0x20)).length 0x20
               ++ (ripFitSample.drop
                     (0 + PATH_OFFSET_IN_HEADER + pathSegment.length)).dropWhile
                   (fun b => b != 0x20))
             (0 + 1) (0 + 1)) :=
  c4_skip_rule_amended ripFitSample 0 0 0 0 (by decide)

theorem matchesAt_byte {data sig : List Nat} {p : Nat}
    (h : matchesAt data sig p = true) (j : Nat) (hj : j < sig.length) :
    data.getD (p + j) 0 = sig.getD j 0 := by
  have ht := matchesAt_take_eq h
  have hs : sig.getD j 0 = ((data.drop p).take sig.length).getD j 0 := by
    rw [ht]
  rw [hs, List.getD_eq_getElem?_getD, List.getD_eq_getElem?_getD,
    List.getElem?_take_of_lt hj, List.getElem?_drop]

theorem header_nomatch_pos (fc mtime : Nat) (rest : List Nat) (h1 : 0 < fc)
    (h2 : fc < 65536) :
    ∀ p, p < 122 →
      matchesAt ((build_header_dynamically fc mtime).1 ++ rest)
        SUBHEADER_SIGNATURE p = false := by
  intro p hp
  rw [build_header_explicit]
  interval_cases p <;>
    first
    | rfl
    | (refine Bool.eq_false_iff.mpr fun hM => ?_
       have hbyte : (0 : Nat) = 0x6D := matchesAt_byte hM 2 (by decide)
       exact absurd hbyte (by decide))
    | (refine Bool.eq_false_iff.mpr fun hM => ?_
       have hbyte : (0 : Nat) = 0x0A := matchesAt_byte hM 4 (by decide)
       exact absurd hbyte (by decide))
    | (refine Bool.eq_false_iff.mpr fun hM => ?_
       have ha : fc % 256 = 0 := matchesAt_byte hM 10 (by decide)
       have hb : fc / 256 % 256 = 0 := matchesAt_byte hM 11 (by decide)
       omega)

theorem rip_loop_skip_step (data : List Nat) (fuel sp total p : Nat)
    (hfind : findFrom data SUBHEADER_SIGNATURE sp = some p)
    (hskip : data.length ≤ p + PATH_OFFSET_IN_HEADER + pathSegment.length) :
    rip_loop pathSegment (fuel + 1) data sp total
      = rip_loop pathSegment fuel data (p + 1) total := by
  simp only [rip_loop, hfind]
  rw [if_pos hskip]

theorem rip_loop_write_step (data : List Nat) (fuel sp total p : Nat)
    (hfind : findFrom data SUBHEADER_SIGNATURE sp = some p)
    (hfit : p + PATH_OFFSET_IN_HEADER + pathSegment.length < data.length) :
    rip_loop pathSegment (fuel + 1) data sp total
      = rip_loop pathSegment fuel
          (spacePadFrom (writeSeg data (p + PATH_OFFSET_IN_HEADER) pathSegment)
            (p + PATH_OFFSET_IN_HEADER + pathSegment.length))
          (p + 1) (total + 1) := by
  simp only [rip_loop, hfind]
  rw [if_neg (by omega)]

theorem writeSeg_length (buf seg : List Nat) (ps : Nat)
    (hfit : ps + seg.length < buf.length) :
    (writeSeg buf ps seg).length = buf.length := by
  rw [writeSeg]
  simp only [List.length_append, List.length_take, List.length_drop]
  omega

theorem write_frame_take (buf seg : List Nat) {ps : Nat} (hps : 176 ≤ ps)
    (hfit : ps + seg.length < buf.length) :
    (spacePadFrom (writeSeg buf ps seg) (ps + seg.length)).take 176
      = buf.take 176 := by
  have hlen1 : (buf.take ps).length = ps := by
    rw [List.length_take]
    omega
  have hX : (writeSeg buf ps seg).take 176 = buf.take 176 := by
    rw [writeSeg,
      List.take_append_of_le_length (by
        simp only [List.length_append]
        omega),
      List.take_append_of_le_length (by rw [hlen1]; exact hps),
      List.take_take, Nat.min_eq_left hps]
  have hXpe : 176 ≤ ((writeSeg buf ps seg).take (ps + seg.length)).length := by
    rw [List.length_take, writeSeg_length buf seg ps hfit]
    omega
  rw [spacePadFrom,
    List.take_append_of_le_length (le_trans hXpe (by
      simp only [List.length_append]
      omega)),
    List.take_append_of_le_length hXpe, List.take_take,
    Nat.min_eq_left (by omega : 176 ≤ ps + seg.length), hX]

theorem rip_loop_frame :
    ∀ (fuel : Nat) (buf : List Nat) (sp total : Nat),
      (∀ p, sp ≤ p → p < 122 →
        matchesAt buf SUBHEADER_SIGNATURE p = false) →
      ((rip_loop pathSegment fuel buf sp total).1).take 176 = buf.take 176 := by
  intro fuel
  induction fuel with
  | zero => intro buf sp total _; rfl
  | succ n ih =>
    intro buf sp total hno
    cases hF : findFrom buf SUBHEADER_SIGNATURE sp with
    | none => simp [rip_loop, hF]
    | some p =>
      obtain ⟨hsp, hM, hplen⟩ := findFrom_sound hF
      have hp122 : 122 ≤ p := by
        by_contra hlt
        push_neg at hlt
        rw [hno p hsp hlt] at hM
        exact Bool.false_ne_true hM
      by_cases hskip : buf.length ≤ p + PATH_OFFSET_IN_HEADER + pathSegment.length
      · rw [rip_loop_skip_step buf n sp total p hF hskip]
        exact ih buf (p + 1) total (fun q hq1 hq2 => absurd hq2 (by omega))
      · have hfit : p + PATH_OFFSET_IN_HEADER + pathSegment.length < buf.length := by
          omega
        rw [rip_loop_write_step buf n sp total p hF hfit]
        rw [ih _ (p + 1) (total + 1) (fun q hq1 hq2 => absurd hq2 (by omega))]
        exact write_frame_take buf pathSegment (by
          have hph : PATH_OFFSET_IN_HEADER = 54 := rfl
          omega) hfit

theorem findFrom_zero {data sig : List Nat} (h0 : matchesAt data sig 0 = true)
    (hlen : 0 < data.length) : findFrom data sig 0 = some 0 := by
  rw [findFrom]
  obtain ⟨m, hm⟩ : ∃ m, data.length = m + 1 := ⟨data.length - 1, by omega⟩
  rw [hm, List.range_succ_eq_map, List.filter_cons]
  simp [h0]

set_option maxHeartbeats 3200000 in
theorem mutated_nomatch (mtime : Nat) (rest : List Nat) :
    ∀ p, 1 ≤ p → p < 122 →
      matchesAt
        (spacePadFrom
          (writeSeg ((build_header_dynamically 0 mtime).1 ++ rest)
            (0 + PATH_OFFSET_IN_HEADER) pathSegment)
          (0 + PATH_OFFSET_IN_HEADER + pathSegment.length))
        SUBHEADER_SIGNATURE p = false := by
  intro p h1 hp
  rw [build_header_explicit]
  interval_cases p <;>
    first
    | rfl
    | (refine Bool.eq_false_iff.mpr fun hM => ?_
       have hbyte : (0 : Nat) = 0x6D := matchesAt_byte hM 2 (by decide)
       exact absurd hbyte (by decide))
    | (refine Bool.eq_false_iff.mpr fun hM => ?_
       have hbyte : (0 : Nat) = 0x0A := matchesAt_byte hM 4 (by decide)
       exact absurd hbyte (by decide))

theorem slice_from_take176 {X Y : List Nat} (h : X.take 176 = Y.take 176) :
    (X.drop 0x36).take 15 = (Y.drop 0x36).take 15 := by
  have h1 : ∀ (Z : List Nat), (Z.drop 54).take 15 = ((Z.take 176).drop 54).take 15 := by
    intro Z
    rw [List.take_drop, List.take_drop, List.take_take]
    rfl
  rw [h1 X, h1 Y, h]

/-- **C10.** For a positive entry count the assembled buffer has no sub-header
signature match starting inside the 122 header bytes (the file-count field is
nonzero where the pattern requires `00 00`), so `replace_internal_paths`
leaves the header untouched; for entry count zero the header itself begins
with the full 12-byte signature, offset 0 becomes a patch site (the assembled
buffer, 122 bytes of header plus data, is always long enough for the write at
`0x36`), and the bytes at `0x36` — previously not the path segment — are
overwritten with the length-prefixed path. -/
theorem c10_header_interaction (fc mtime : Nat) (rest : List Nat)
    (h1 : 0 < fc) (h2 : fc < 65536) :
    (∀ p, p < 122 →
        matchesAt ((build_header_dynamically fc mtime).1 ++ rest)
          SUBHEADER_SIGNATURE p = false)
    ∧ (replace_internal_paths
        ((build_header_dynamically fc mtime).1 ++ rest)).1.take 122
        = (build_header_dynamically fc mtime).1
    ∧ (build_header_dynamically 0 mtime).1.take 12 = SUBHEADER_SIGNATURE
    ∧ matchesAt ((build_header_dynamically 0 mtime).1 ++ rest)
        SUBHEADER_SIGNATURE 0 = true
    ∧ ((build_header_dynamically 0 mtime).1.drop 0x36).take 15 ≠ pathSegment
    ∧ ((replace_internal_paths
        ((build_header_dynamically 0 mtime).1 ++ rest)).1.drop 0x36).take 15
        = pathSegment := by
  have hnm := header_nomatch_pos fc mtime rest h1 h2
  have hlenf : (build_header_dynamically fc mtime).1.length = 122 := by
    rw [build_header_explicit]
    rfl
  have hlen0 : (build_header_dynamically 0 mtime).1.length = 122 := by
    rw [build_header_explicit]
    rfl
  have e1 : ∀ (Z : List Nat), Z.take 122 = (Z.take 176).take 122 := fun Z => by
    rw [List.take_take]
    rfl
  refine ⟨hnm, ?_, ?_, ?_, ?_, ?_⟩
  · rw [replace_internal_paths]
    have hframe := rip_loop_frame
      (((build_header_dynamically fc mtime).1 ++ rest).length + 1)
      ((build_header_dynamically fc mtime).1 ++ rest) 0 0
      (fun p _ hp => hnm p hp)
    calc ((rip_loop pathSegment
            (((build_header_dynamically fc mtime).1 ++ rest).length + 1)
            ((build_header_dynamically fc mtime).1 ++ rest) 0 0).1).take 122
        = (((rip_loop pathSegment
            (((build_header_dynamically fc mtime).1 ++ rest).length + 1)
            ((build_header_dynamically fc mtime).1 ++ rest) 0 0).1).take 176).take 122 :=
          e1 _
      _ = (((build_header_dynamically fc mtime).1 ++ rest).take 176).take 122 := by
          rw [hframe]
      _ = ((build_header_dynamically fc mtime).1 ++ rest).take 122 := (e1 _).symm
      _ = (build_header_dynamically fc mtime).1.take 122 :=
          List.take_append_of_le_length (by simp [hlenf])
      _ = (build_header_dynamically fc mtime).1 := by
          rw [← hlenf, List.take_length]
  · rw [build_header_explicit]
    rfl
  · rw [build_header_explicit]
    rfl
  · rw [build_header_explicit]
    intro hEq
    have hb : (0 : Nat) = 14 := congrArg (fun l => l.getD 0 0) hEq
    exact absurd hb (by decide)
  · have hm0 : matchesAt ((build_header_dynamically 0 mtime).1 ++ rest)
        SUBHEADER_SIGNATURE 0 = true := by
      rw [build_header_explicit]
      rfl
    have hfind : findFrom ((build_header_dynamically 0 mtime).1 ++ rest)
        SUBHEADER_SIGNATURE 0 = some 0 :=
      findFrom_zero hm0 (by
        rw [List.length_append, hlen0]
        omega)
    have hfit : 0 + PATH_OFFSET_IN_HEADER + pathSegment.length
        < ((build_header_dynamically 0 mtime).1 ++ rest).length := by
      rw [List.length_append, hlen0]
      have hph : PATH_OFFSET_IN_HEADER = 54 := rfl
      have hpl : pathSegment.length = 15 := rfl
      omega
    rw [replace_internal_paths,
      rip_loop_write_step _ _ 0 0 0 hfind hfit]
    have hframe := rip_loop_frame
      ((build_header_dynamically 0 mtime).1 ++ rest).length
      (spacePadFrom
        (writeSeg ((build_header_dynamically 0 mtime).1 ++ rest)
          (0 + PATH_OFFSET_IN_HEADER) pathSegment)
        (0 + PATH_OFFSET_IN_HEADER + pathSegment.length))
      1 1 (mutated_nomatch mtime rest)
    rw [slice_from_take176 hframe, build_header_explicit]
    rfl

theorem c10_header_interaction_witness :
    (∀ p, p < 122 →
        matchesAt ((build_header_dynamically 1 0).1 ++ [])
          SUBHEADER_SIGNATURE p = false)
    ∧ (replace_internal_paths
        ((build_header_dynamically 1 0).1 ++ [])).1.take 122
        = (build_header_dynamically 1 0).1
    ∧ (build_header_dynamically 0 0).1.take 12 = SUBHEADER_SIGNATURE
    ∧ matchesAt ((build_header_dynamically 0 0).1 ++ [])
        SUBHEADER_SIGNATURE 0 = true
    ∧ ((build_header_dynamically 0 0).1.drop 0x36).take 15 ≠ pathSegment
    ∧ ((replace_internal_paths
        ((build_header_dynamically 0 0).1 ++ [])).1.drop 0x36).take 15
        = pathSegment :=
  c10_header_interaction 1 0 [] (by decide) (by decide)
